import Mathlib

/-
  Verification of the Solar Potential Analysis Engine against its
  natural-language specification.

  The definitions below are a shallow embedding of the TypeScript source:
  - src/utils/solarCalculations.ts   (SolarPositionCalculator, IrradianceCalculator,
                                      SolarPotentialAnalyzer)
  - src/lib/analysisEngine.ts        (BiasCorrectionEngine)
  - src/lib/landPriceEstimator.ts    (LandPriceEstimator)
  - src/lib/minHeap.ts               (MinHeap / MaxHeap)

  JavaScript floating-point numbers are modelled as real numbers (ℝ) where the
  code is transcendental (trigonometry, sqrt, powers) and as rationals (ℚ)
  where the code is plain arithmetic, so the latter definitions stay
  executable.  The JS Date used by calculateRawPOA is modelled with the civil
  timezone taken as a fixed offset (no DST), so local midnight-based
  day-of-year arithmetic is plain calendar arithmetic.
-/

set_option maxHeartbeats 1000000

/-- A WGS-84 coordinate, `Coordinates` of src/types. -/
structure Coordinates where
  lat : ℝ
  lng : ℝ

instance : Inhabited Coordinates := ⟨⟨0, 0⟩⟩

/-- JavaScript `Math.atan2`, case-split on the quadrant (Math.atan2(0,0) = 0). -/
noncomputable def atan2 (y x : ℝ) : ℝ :=
  if 0 < x then Real.arctan (y / x)
  else if x < 0 then
    (if 0 ≤ y then Real.arctan (y / x) + Real.pi else Real.arctan (y / x) - Real.pi)
  else
    (if 0 < y then Real.pi / 2 else if y < 0 then -(Real.pi / 2) else 0)

/-- The `a` term of the haversine formula in `calculateDistance`
(identical private helper in solarCalculations.ts, analysisEngine.ts and
landPriceEstimator.ts). -/
noncomputable def haversineA (point1 point2 : Coordinates) : ℝ :=
  let dLat := (point2.lat - point1.lat) * Real.pi / 180
  let dLng := (point2.lng - point1.lng) * Real.pi / 180
  Real.sin (dLat / 2) * Real.sin (dLat / 2) +
    Real.cos (point1.lat * Real.pi / 180) * Real.cos (point2.lat * Real.pi / 180) *
      Real.sin (dLng / 2) * Real.sin (dLng / 2)

/-- `calculateDistance(point1, point2)`: haversine distance in km, R = 6371. -/
noncomputable def calculateDistance (point1 point2 : Coordinates) : ℝ :=
  let a := haversineA point1 point2
  let c := 2 * atan2 (Real.sqrt a) (Real.sqrt (1 - a))
  6371 * c

/-- `IrradianceCalculator.SOLAR_CONSTANT` (W/m²). -/
def SOLAR_CONSTANT : ℝ := 1367

/-- `IrradianceCalculator.CLEAR_SKY_ATTENUATION`. -/
def CLEAR_SKY_ATTENUATION : ℝ := 0.75

/-- `IrradianceCalculator.DIFFUSE_FRACTION`. -/
def DIFFUSE_FRACTION : ℝ := 0.15

/-- `IrradianceCalculator.ALBEDO`. -/
def ALBEDO : ℝ := 0.2

/-- The air mass computed inside `IrradianceCalculator.calculateDNI`:
`const airMass = 1 / Math.sin(elevation)`. -/
noncomputable def airMass (elevation : ℝ) : ℝ := 1 / Real.sin elevation

/-- `const atmosphericTransmittance = Math.pow(0.7, Math.pow(airMass, 0.678))`. -/
noncomputable def atmosphericTransmittance (m : ℝ) : ℝ :=
  (0.7 : ℝ) ^ (m ^ (0.678 : ℝ))

/-- `IrradianceCalculator.calculateDNI(elevation, incidenceAngle)` exactly as in
src/utils/solarCalculations.ts lines 192-204 (note: it multiplies by
`Math.max(0, Math.cos(incidenceAngle))`). -/
noncomputable def calculateDNI (elevation incidenceAngle : ℝ) : ℝ :=
  if elevation ≤ 0 then 0
  else
    SOLAR_CONSTANT * max 0 (Real.cos incidenceAngle) *
      atmosphericTransmittance (airMass elevation) * CLEAR_SKY_ATTENUATION

/-- Modelled from the spec: the Kasten–Young air mass of §4.6,
`m = 1 / (sin e + 0.50572·(e_deg + 6.07995)^(−1.6364))`, which the spec claims
is the air mass used inside `calculateDNI`.  Not present anywhere in the
source. -/
noncomputable def kastenYoungAirMass (elevation : ℝ) : ℝ :=
  1 / (Real.sin elevation +
    0.50572 * (elevation * 180 / Real.pi + 6.07995) ^ (-(1.6364 : ℝ)))

/-- `IrradianceCalculator.calculateDHI(dni, elevation)`. -/
noncomputable def calculateDHI (dni elevation : ℝ) : ℝ :=
  if elevation ≤ 0 then 0 else dni * Real.sin elevation * DIFFUSE_FRACTION

/-- `IrradianceCalculator.calculateIncidenceAngle`: the solar position's
azimuth is passed through `(solarAzimuth * Math.PI) / 180` exactly as in the
source. -/
noncomputable def calculateIncidenceAngle (elevation solarAzimuth tilt azimuth : ℝ) : ℝ :=
  let tiltRad := tilt * Real.pi / 180
  let azimuthRad := azimuth * Real.pi / 180
  let solarAzimuthRad := solarAzimuth * Real.pi / 180
  let cosIncidence := Real.sin elevation * Real.cos tiltRad +
    Real.cos elevation * Real.sin tiltRad * Real.cos (solarAzimuthRad - azimuthRad)
  Real.arccos (max 0 cosIncidence)

/-- `IrradianceCalculator.calculateIrradiance`: returns `(dni, dhi, ghi)`. -/
noncomputable def calculateIrradiance (elevation solarAzimuth tilt azimuth : ℝ) :
    ℝ × ℝ × ℝ :=
  let incidenceAngle := calculateIncidenceAngle elevation solarAzimuth tilt azimuth
  let dni := calculateDNI elevation incidenceAngle
  let dhi := calculateDHI dni elevation
  let ghi := dni * Real.sin elevation + dhi
  (dni, dhi, ghi)

/-- `IrradianceCalculator.calculatePOAIrradiance`. -/
noncomputable def calculatePOAIrradiance (dni dhi ghi elevation solarAzimuth tilt azimuth : ℝ) : ℝ :=
  let incidenceAngle := calculateIncidenceAngle elevation solarAzimuth tilt azimuth
  let directComponent := dni * max 0 (Real.cos incidenceAngle)
  let diffuseComponent := dhi * (1 + Real.cos (tilt * Real.pi / 180)) / 2
  let groundReflected := ghi * ALBEDO * (1 - Real.cos (tilt * Real.pi / 180)) / 2
  directComponent + diffuseComponent + groundReflected

/-- `SolarPositionCalculator.calculateDeclination(dayOfYear)` (radians). -/
noncomputable def calculateDeclination (dayOfYear : ℕ) : ℝ :=
  23.45 * Real.sin ((284 + (dayOfYear : ℝ)) * (Real.pi / 180)) * Real.pi / 180

/-- The Equation of Time correction (minutes), the `B`/`equationOfTime` block
repeated in `convertToLocalSolarTime`, `calculateSolarNoon` and
`calculateHourAngleWithLongitude`. -/
noncomputable def equationOfTime (dayOfYear : ℕ) : ℝ :=
  let B := (360 / 365) * ((dayOfYear : ℝ) - 81) * (Real.pi / 180)
  9.87 * Real.sin (2 * B) - 7.53 * Real.cos B - 1.5 * Real.sin B

/-- `SolarPositionCalculator.convertToLocalSolarTime(utcHour, longitude, dayOfYear)`. -/
noncomputable def convertToLocalSolarTime (utcHour longitude : ℝ) (dayOfYear : ℕ) : ℝ :=
  utcHour + longitude / 15 + equationOfTime dayOfYear / 60

/-- `SolarPositionCalculator.calculateHourAngle(solarTime)` (radians). -/
noncomputable def calculateHourAngle (solarTime : ℝ) : ℝ :=
  (solarTime - 12) * 15 * Real.pi / 180

/-- `SolarPositionCalculator.calculateElevation(lat, declination, hourAngle)`. -/
noncomputable def calculateElevation (lat declination hourAngle : ℝ) : ℝ :=
  let latRad := lat * Real.pi / 180
  Real.arcsin (Real.sin declination * Real.sin latRad +
    Real.cos declination * Real.cos latRad * Real.cos hourAngle)

/-- `SolarPositionCalculator.calculateAzimuth(lat, declination, hourAngle, _)`. -/
noncomputable def calculateAzimuth (lat declination hourAngle : ℝ) : ℝ :=
  let latRad := lat * Real.pi / 180
  atan2 (Real.sin hourAngle)
    (Real.cos hourAngle * Real.sin latRad - Real.tan declination * Real.cos latRad)

/-- `SolarPositionCalculator.calculateSolarPosition(lat, lon, date)`, with the
date split into its day-of-year and its UTC hour-of-day; returns
`(elevation, azimuth)`. -/
noncomputable def calculateSolarPosition (lat lon : ℝ) (dayOfYear : ℕ) (utcHour : ℝ) :
    ℝ × ℝ :=
  let localSolarTime := convertToLocalSolarTime utcHour lon dayOfYear
  let declination := calculateDeclination dayOfYear
  let hourAngle := calculateHourAngle localSolarTime
  let elevation := calculateElevation lat declination hourAngle
  let azimuth := calculateAzimuth lat declination hourAngle
  (elevation, azimuth)

/-- A JS `new Date(year, monthIndex, day)` value: `monthIndex` is 0-based
(0 = January), as in the JavaScript Date constructor. -/
structure CalendarDate where
  year : ℕ
  monthIndex : ℕ
  day : ℕ
deriving DecidableEq

/-- Gregorian leap-year test. -/
def isLeapYear (y : ℕ) : Bool :=
  decide ((y % 4 = 0 ∧ y % 100 ≠ 0) ∨ y % 400 = 0)

/-- Days in the 0-based month `m` of year `y`. -/
def daysInMonth (y m : ℕ) : ℕ :=
  if m = 0 then 31 else if m = 1 then (if isLeapYear y then 29 else 28)
  else if m = 2 then 31 else if m = 3 then 30 else if m = 4 then 31
  else if m = 5 then 30 else if m = 6 then 31 else if m = 7 then 31
  else if m = 8 then 30 else if m = 9 then 31 else if m = 10 then 30 else 31

/-- `SolarPositionCalculator.getDayOfYear(date)`: days elapsed since Dec 31 of
the previous year (Mar 20 of a leap year ↦ 80).  The JS code divides the
millisecond difference to local midnight by 86,400,000; with the civil
timezone modelled as a fixed offset this is plain calendar arithmetic. -/
def getDayOfYear (d : CalendarDate) : ℕ :=
  (List.range d.monthIndex).foldl (fun acc m => acc + daysInMonth d.year m) 0 + d.day

/-- The representative date hard-coded in
`SolarPotentialAnalyzer.calculateRawPOA`:
`const date = new Date(2024, 2, 20) // March 20, 2024 (spring equinox)`. -/
def rawPOADate : CalendarDate := ⟨2024, 2, 20⟩

/-- `SolarPotentialAnalyzer.calculateUrbanFactor(lat)`. -/
noncomputable def calculateUrbanFactor (lat : ℝ) : ℝ :=
  max 0.7 (1 - |lat| / 90 * 0.3)

/-- `SolarPotentialAnalyzer.calculateSkyViewFactor(lat)`. -/
noncomputable def calculateSkyViewFactor (lat : ℝ) : ℝ :=
  max 0.8 (1 - |lat| / 90 * 0.2)

/-- The POA summand of one 5-minute step of `calculateRawPOA`:
`0` when the sun is below the horizon, otherwise
`calculatePOAIrradiance(calculateIrradiance(...), ...)`. -/
noncomputable def rawPOAStep (lat lng tilt azimuth : ℝ) (dayOfYear : ℕ) (hour : ℝ) : ℝ :=
  let pos := calculateSolarPosition lat lng dayOfYear hour
  if 0 < pos.1 then
    let irr := calculateIrradiance pos.1 pos.2 tilt azimuth
    calculatePOAIrradiance irr.1 irr.2.1 irr.2.2 pos.1 pos.2 tilt azimuth
  else 0

/-- The body of `SolarPotentialAnalyzer.calculateRawPOA` with its day-of-year
abstracted: sum of 288 five-minute steps (the JS local clock is modelled as
UTC), then the optional urban penalty, the sky-view factor, and `max 0`. -/
noncomputable def calculateRawPOAOnDay (lat lng : ℝ) (urbanPenalty : Bool)
    (dayOfYear : ℕ) : ℝ :=
  let tilt := lat * 0.76
  let azimuth : ℝ := if 0 ≤ lat then 180 else 0
  let totalPOA :=
    ((List.range (24 * 12)).map
      (fun i => rawPOAStep lat lng tilt azimuth dayOfYear ((i : ℝ) / 12))).sum
  let totalPOA := if urbanPenalty then totalPOA * calculateUrbanFactor lat else totalPOA
  max 0 (totalPOA * calculateSkyViewFactor lat)

/-- `SolarPotentialAnalyzer.calculateRawPOA(coordinates, urbanPenalty)`:
the daily integration at the hard-coded representative date `rawPOADate`. -/
noncomputable def calculateRawPOA (lat lng : ℝ) (urbanPenalty : Bool) : ℝ :=
  calculateRawPOAOnDay lat lng urbanPenalty (getDayOfYear rawPOADate)

/-- `BiasCorrectionEngine.applyBiasCorrection(rawPOA, biasFactors)`:
identity (`rawPOA * 1.0`) when `|correlation| < 0.3`, otherwise
`max(0, slope*rawPOA + intercept)`. -/
def applyBiasCorrection (rawPOA slope intercept correlation : ℚ) : ℚ :=
  if |correlation| < 3 / 10 then rawPOA * 1
  else max 0 (slope * rawPOA + intercept)

/-- The clear-sky index computed in `BiasCorrectionEngine.processCandidate`
(and identically in `calculateRPS`):
`baselinePOA > 0 ? Math.max(0, Math.min(2, correctedPOA / baselinePOA)) : 0`. -/
def clearSkyIndex (baselinePOA correctedPOA : ℚ) : ℚ :=
  if 0 < baselinePOA then max 0 (min 2 (correctedPOA / baselinePOA)) else 0

/-- `BiasCorrectionEngine.calculateRPS(_rawPOA, baselinePOA, correctedPOA,
localPercentile, config)` with the two weights of the config passed
explicitly (defaults: `csiWeight = 0.6`, `percentileWeight = 0.4`). -/
def calculateRPS (rawPOA baselinePOA correctedPOA localPercentile : ℚ)
    (csiWeight percentileWeight : ℚ) : ℚ :=
  let _ := rawPOA
  let csi := if 0 < baselinePOA then max 0 (min 2 (correctedPOA / baselinePOA)) else 0
  let normalizedPercentile := localPercentile / 100
  max 0 (csiWeight * csi + percentileWeight * normalizedPercentile)

/-- `BiasCorrectionEngine.calculateLocalPercentile(candidatePOA, allCandidates)`.
JS `findIndex` returns −1 when no entry matches; `List.findIdx` returns the
length instead, so the `rank === -1` test becomes `rank = length`. -/
def calculateLocalPercentile (candidatePOA : ℚ) (allCandidates : List ℚ) : ℚ :=
  if allCandidates.length ≤ 1 then 50
  else
    let sortedCandidates := allCandidates.insertionSort (· ≤ ·)
    let rank := sortedCandidates.findIdx (fun poa => decide (candidatePOA ≤ poa))
    if rank = sortedCandidates.length then 100
    else if rank = 0 then 0
    else max 0 (min 100 ((rank : ℚ) / ((sortedCandidates.length : ℚ) - 1) * 100))

/-- The `localPercentile` field produced by
`BiasCorrectionEngine.processCandidate`: the bias-corrected POA of the
candidate is ranked against `allCandidates`, which `processAllCandidates`
fills with the candidates' *raw* POA values. -/
def processCandidateLocalPercentile (rawPOA : ℚ) (allCandidates : List ℚ)
    (slope intercept correlation : ℚ) : ℚ :=
  calculateLocalPercentile (applyBiasCorrection rawPOA slope intercept correlation)
    allCandidates

/-- Modelled from the spec: "sort all candidate `corrected_poa` values; each
candidate's percentile is `100·rank/(n−1)`, min 0, max 100" — the rank of the
candidate's corrected value inside the sorted list of all corrected values. -/
def specLocalPercentile (corrected : ℚ) (allCorrected : List ℚ) : ℚ :=
  let sorted := allCorrected.insertionSort (· ≤ ·)
  let rank := sorted.indexOf corrected
  max 0 (min 100 (100 * (rank : ℚ) / ((sorted.length : ℚ) - 1)))

/-- The percentile value as a function of the rank `r` and the candidate count
`n`, matching the branches of `calculateLocalPercentile` for `n ≥ 2`:
100 when the rank ran off the end, otherwise `clamp(100·r/(n−1), 0, 100)`. -/
def rankPercentile (r n : ℕ) : ℚ :=
  if r = n then 100 else max 0 (min 100 ((r : ℚ) / ((n : ℚ) - 1) * 100))

/-- One step of the linear congruential generator in
`SolarPotentialAnalyzer.createSeededRNG`:
`state = (state * 1664525 + 1013904223) % 4294967296` (exact in doubles). -/
def lcgNext (state : ℕ) : ℕ := (state * 1664525 + 1013904223) % 4294967296

/-- JS `ToInt32`: wrap an integer into the signed 32-bit range. -/
def toInt32 (n : ℤ) : ℤ := (n + 2 ^ 31) % 2 ^ 32 - 2 ^ 31

/-- One line of `SolarPotentialAnalyzer.simpleHash`:
`hash = ((hash << 5) - hash + v) & 0xffffffff` (the shift truncates to 32 bits,
the following arithmetic is exact, `& 0xffffffff` truncates again). -/
def hashStep (hash v : ℤ) : ℤ := toInt32 (toInt32 (hash * 32) - hash + v)

/-- `SolarPotentialAnalyzer.simpleHash(lat, lng, radiusKm)` applied to the
already-floored integer inputs; returns `Math.abs(hash)`. -/
def simpleHash (latInt lngInt radiusInt : ℤ) : ℤ :=
  |hashStep (hashStep latInt lngInt) radiusInt|

/-- `SolarPotentialAnalyzer.generateRandomPointInCircle(center, radiusKm, rng)`
with the two consumed rng values passed explicitly. -/
noncomputable def generateRandomPointInCircle (center : Coordinates) (radiusKm u v : ℝ) :
    Coordinates :=
  let randomRadius := radiusKm * Real.sqrt u
  let randomAngle := 2 * Real.pi * v
  let x := randomRadius * Real.cos randomAngle
  let y := randomRadius * Real.sin randomAngle
  let latKm : ℝ := 111
  let lngKm : ℝ := 111 * Real.cos (center.lat * Real.pi / 180)
  ⟨center.lat + y / latKm, center.lng + x / lngKm⟩

/-- The point-generation loop of `generateRandomSampling`: each iteration
draws two rng values (radius then angle) and appends one point. -/
noncomputable def samplingLoop (center : Coordinates) (radiusKm : ℝ) :
    ℕ → ℕ → List Coordinates
  | 0, _ => []
  | n + 1, state =>
    let s1 := lcgNext state
    let s2 := lcgNext s1
    generateRandomPointInCircle center radiusKm ((s1 : ℝ) / 4294967296)
        ((s2 : ℝ) / 4294967296) ::
      samplingLoop center radiusKm n s2

/-- The target point count of `generateRandomSampling`:
`Math.min(2000, Math.max(200, Math.round(radiusKm * radiusKm * 30)))`
(JS `Math.round` rounds half up, as Lean's `round` does). -/
def targetPointCount (radiusKm : ℚ) : ℤ :=
  min 2000 (max 200 (round (radiusKm * radiusKm * 30)))

/-- `SolarPotentialAnalyzer.generateRandomSampling(center, radiusKm)`:
seeds the LCG from `simpleHash(⌊lat·1e6⌋, ⌊lng·1e6⌋, ⌊radius·1e3⌋)` and
generates exactly `targetPointCount` points. -/
noncomputable def generateRandomSampling (center : Coordinates) (radiusKm : ℚ) :
    List Coordinates :=
  let seed := simpleHash ⌊center.lat * 1000000⌋ ⌊center.lng * 1000000⌋
    ⌊radiusKm * 1000⌋
  samplingLoop center (radiusKm : ℝ) (targetPointCount radiusKm).toNat seed.toNat

/-- `BiasCorrectionEngine.sampleReferencePoints(center, radiusKm, sampleSize)`.
The radial jitter comes from the *global, unseeded* `Math.random()`; the
stream of its return values is made explicit as `rnd` (the i-th loop
iteration consumes the i-th value). -/
noncomputable def sampleReferencePoints (center : Coordinates) (radiusKm : ℝ)
    (sampleSize : ℕ) (rnd : ℕ → ℝ) : List Coordinates :=
  (List.range sampleSize).map fun (i : ℕ) =>
    let angle := 2 * Real.pi * (i : ℝ) / (sampleSize : ℝ)
    let distance := radiusKm * (0.3 + 0.7 * rnd i)
    let latKm : ℝ := 111
    let lngKm : ℝ := 111 * Real.cos (center.lat * Real.pi / 180)
    ⟨center.lat + distance * Real.cos angle / latKm,
     center.lng + distance * Real.sin angle / lngKm⟩

/-- `BiasCorrectionResult` of src/lib (the fields consumed downstream). -/
structure BiasCorrectionResult where
  location : Coordinates
  rawPOA : ℝ
  baselinePOA : ℝ
  correctedPOA : ℝ
  clearSkyIndex : ℝ
  localPercentile : ℝ
  relativePotentialScore : ℝ

open scoped Classical in
/-- The selection loop of `SolarPotentialAnalyzer.applySpacingToBiasResults`:
a candidate is skipped when it lies within 0.5 km of an already selected
result; after a push the loop stops once 5 results are selected. -/
noncomputable def spacingLoop :
    List BiasCorrectionResult → List BiasCorrectionResult → List BiasCorrectionResult
  | [], finalResults => finalResults
  | candidate :: rest, finalResults =>
    if ∃ selected ∈ finalResults,
        calculateDistance candidate.location selected.location < 0.5 then
      spacingLoop rest finalResults
    else
      let finalResults' := finalResults ++ [candidate]
      if 5 ≤ finalResults'.length then finalResults'
      else spacingLoop rest finalResults'

/-- `SolarPotentialAnalyzer.applySpacingToBiasResults(results, _center)`. -/
noncomputable def applySpacingToBiasResults (results : List BiasCorrectionResult) :
    List BiasCorrectionResult :=
  if results.length ≤ 1 then results else spacingLoop results []

/-- `HeapItem` of src/lib/minHeap.ts (identical in both heap classes). -/
structure HeapItem where
  score : ℚ
  kwhPerDay : ℚ
  lat : ℚ
  lng : ℚ
deriving DecidableEq

instance : Inhabited HeapItem := ⟨⟨0, 0, 0, 0⟩⟩

/-- The score stored at position `i` of the heap array. -/
def heapScore (heap : List HeapItem) (i : ℕ) : ℚ := (heap.getD i default).score

/-- `MinHeap.swap(i, j)` (same code in `MaxHeap.swap`). -/
def heapSwap (heap : List HeapItem) (i j : ℕ) : List HeapItem :=
  (heap.set i (heap.getD j default)).set j (heap.getD i default)

/-- `MinHeap.heapifyUp(index)` (same code in `MaxHeap.heapifyUp`). -/
def heapifyUp (heap : List HeapItem) (index : ℕ) : List HeapItem :=
  if index = 0 then heap
  else if heapScore heap index < heapScore heap ((index - 1) / 2) then
    heapifyUp (heapSwap heap index ((index - 1) / 2)) ((index - 1) / 2)
  else heap
termination_by index
decreasing_by
  exact Nat.lt_of_le_of_lt (Nat.div_le_self _ 2) (Nat.pred_lt (by assumption))

/-- The first comparison of `MinHeap.heapifyDown`: the smaller of `index` and
its in-range left child. -/
def childStep1 (heap : List HeapItem) (index : ℕ) : ℕ :=
  if 2 * index + 1 < heap.length ∧
      heapScore heap (2 * index + 1) < heapScore heap index then 2 * index + 1
  else index

/-- The `smallest` index computed by `MinHeap.heapifyDown` (same code in
`MaxHeap.heapifyDown`): the position among `index` and its in-range children
holding the smallest score, with the left child compared first. -/
def smallestChild (heap : List HeapItem) (index : ℕ) : ℕ :=
  if 2 * index + 2 < heap.length ∧
      heapScore heap (2 * index + 2) < heapScore heap (childStep1 heap index) then
    2 * index + 2
  else childStep1 heap index

/-- `MinHeap.heapifyDown(index)` (same code in `MaxHeap.heapifyDown`). -/
def heapifyDown (heap : List HeapItem) (index : ℕ) : List HeapItem :=
  if h : smallestChild heap index = index then heap
  else heapifyDown (heapSwap heap index (smallestChild heap index))
    (smallestChild heap index)
termination_by heap.length - index
decreasing_by
  have hlen : (heapSwap heap index (smallestChild heap index)).length = heap.length := by
    unfold heapSwap; simp
  rw [hlen]
  have hbound : index < smallestChild heap index ∧ smallestChild heap index < heap.length := by
    unfold smallestChild childStep1 at h ⊢
    by_cases h1 : 2 * index + 1 < heap.length ∧
        heapScore heap (2 * index + 1) < heapScore heap index
    · rw [if_pos h1] at h ⊢
      by_cases h2 : 2 * index + 2 < heap.length ∧
          heapScore heap (2 * index + 2) < heapScore heap (2 * index + 1)
      · rw [if_pos h2]; exact ⟨by omega, h2.1⟩
      · rw [if_neg h2]; exact ⟨by omega, h1.1⟩
    · rw [if_neg h1] at h ⊢
      by_cases h2 : 2 * index + 2 < heap.length ∧
          heapScore heap (2 * index + 2) < heapScore heap index
      · rw [if_pos h2]; exact ⟨by omega, h2.1⟩
      · rw [if_neg h2] at h; exact absurd rfl h
  omega

/-- `MinHeap.push(item)` for a heap constructed with `maxSize`.  `MaxHeap.push`
is the same code (its `getWorstScore()` is `heap[0].score` whenever the heap
is nonempty, which holds in the full branch for every `maxSize ≥ 1`). -/
def push (maxSize : ℕ) (heap : List HeapItem) (item : HeapItem) : List HeapItem :=
  if heap.length < maxSize then heapifyUp (heap ++ [item]) heap.length
  else if heapScore heap 0 < item.score then heapifyDown (heap.set 0 item) 0
  else heap

/-- A sequence of `push` operations on an initially empty heap of capacity
`maxSize`. -/
def heapFold (maxSize : ℕ) (items : List HeapItem) : List HeapItem :=
  items.foldl (push maxSize) []

/-- The binary-heap ordering invariant of the array encoding: every non-root
in-range position is at least its parent. -/
def IsMinHeap (heap : List HeapItem) : Prop :=
  ∀ j, 0 < j → j < heap.length → heapScore heap ((j - 1) / 2) ≤ heapScore heap j

/-- Two selected results are spaced apart: at least 0.5 km in both
argument orders of the haversine distance. -/
def SpacedApart (a b : BiasCorrectionResult) : Prop :=
  0.5 ≤ calculateDistance a.location b.location ∧
    0.5 ≤ calculateDistance b.location a.location

/-- The state of `heapifyUp` at cursor `k`: the heap ordering holds at every
in-range child position except `k`, and the item at `k`'s parent slot is below
`k`'s own children. -/
def UpInvHolds (heap : List HeapItem) (k : ℕ) : Prop :=
  (∀ j, 0 < j → j < heap.length → j ≠ k →
    heapScore heap ((j - 1) / 2) ≤ heapScore heap j) ∧
  (∀ j, 0 < k → (j = 2 * k + 1 ∨ j = 2 * k + 2) → j < heap.length →
    heapScore heap ((k - 1) / 2) ≤ heapScore heap j)

/-- The state of `heapifyDown` at cursor `k`: the heap ordering holds at every
in-range child position whose parent is not `k`, and the item at `k`'s parent
slot is below `k`'s children. -/
def DownInvHolds (heap : List HeapItem) (k : ℕ) : Prop :=
  (∀ j, 0 < j → j < heap.length → (j - 1) / 2 ≠ k →
    heapScore heap ((j - 1) / 2) ≤ heapScore heap j) ∧
  (∀ j, 0 < k → (j = 2 * k + 1 ∨ j = 2 * k + 2) → j < heap.length →
    heapScore heap ((k - 1) / 2) ≤ heapScore heap j)

/-- Invariant tying the heap array to the multiset of items pushed so far:
heap ordering, size `min maxSize count`, contents drawn from the pushed items,
and every dropped item scoring strictly below every retained one. -/
def HeapInv (maxSize : ℕ) (heap seen : List HeapItem) : Prop :=
  IsMinHeap heap ∧ heap.length = min maxSize seen.length ∧ heap.Subperm seen ∧
    ∀ a ∈ seen, a ∉ heap → ∀ b ∈ heap, a.score < b.score

/-- C1: the claim says `calculateDNI` never depends on the panel incidence
angle; in the source it multiplies by `Math.max(0, Math.cos(incidenceAngle))`,
so at elevation π/2 the DNI at a 60° angle of incidence differs from the DNI
at normal incidence.  The spec itself flags this implementation as the known
DNI bug (§9), so the claim is right and the code is wrong. -/
theorem C1_dni_depends_on_incidence :
    calculateDNI (Real.pi / 2) (Real.pi / 3) ≠ calculateDNI (Real.pi / 2) 0 := by
  have hne : ¬ Real.pi / 2 ≤ 0 := not_le.mpr (by positivity)
  unfold calculateDNI airMass atmosphericTransmittance SOLAR_CONSTANT
    CLEAR_SKY_ATTENUATION
  rw [if_neg hne, if_neg hne, Real.sin_pi_div_two, Real.cos_pi_div_three,
    Real.cos_zero]
  norm_num [Real.one_rpow, Real.rpow_one]

/-- C5 (counterexample): at elevation π/2 the DNI computed by the source does
not match the value it would have if the air mass were the Kasten–Young air
mass of the claim: the code's `1/sin e` gives air mass exactly 1 there, while
the Kasten–Young value is strictly below 1, so the transmittances differ. -/
theorem C5_counterexample :
    calculateDNI (Real.pi / 2) 0 ≠
      SOLAR_CONSTANT * max 0 (Real.cos 0) *
        atmosphericTransmittance (kastenYoungAirMass (Real.pi / 2)) *
        CLEAR_SKY_ATTENUATION := by
  have hpi : (0 : ℝ) < Real.pi / 2 := by positivity
  have hsin : Real.sin (Real.pi / 2) = 1 := Real.sin_pi_div_two
  have hdeg : Real.pi / 2 * 180 / Real.pi = 90 := by
    rw [div_eq_iff (Real.pi_ne_zero)]
    ring
  have hc : (0 : ℝ) < 0.50572 * ((90 : ℝ) + 6.07995) ^ (-(1.6364 : ℝ)) := by
    have h1 : (0 : ℝ) < ((90 : ℝ) + 6.07995) ^ (-(1.6364 : ℝ)) :=
      Real.rpow_pos_of_pos (by norm_num) _
    nlinarith
  have hky : kastenYoungAirMass (Real.pi / 2) =
      1 / (1 + 0.50572 * ((90 : ℝ) + 6.07995) ^ (-(1.6364 : ℝ))) := by
    unfold kastenYoungAirMass
    rw [hsin, hdeg]
  have hky0 : 0 < kastenYoungAirMass (Real.pi / 2) := by
    rw [hky]; positivity
  have hky1 : kastenYoungAirMass (Real.pi / 2) < 1 := by
    rw [hky, div_lt_one (by linarith)]; linarith
  have ht1 : kastenYoungAirMass (Real.pi / 2) ^ (0.678 : ℝ) < 1 :=
    Real.rpow_lt_one hky0.le hky1 (by norm_num)
  have htau : (0.7 : ℝ) ^ (1 : ℝ) <
      (0.7 : ℝ) ^ (kastenYoungAirMass (Real.pi / 2) ^ (0.678 : ℝ)) :=
    Real.rpow_lt_rpow_of_exponent_gt (by norm_num) (by norm_num) ht1
  rw [Real.rpow_one] at htau
  unfold calculateDNI airMass atmosphericTransmittance SOLAR_CONSTANT
    CLEAR_SKY_ATTENUATION
  rw [if_neg (not_le.mpr hpi), hsin, Real.cos_zero]
  norm_num [Real.one_rpow, Real.rpow_one]
  nlinarith [htau]

/-- C5 (amended): for every positive solar elevation the air mass used inside
`calculateDNI` is the plain cosecant `1 / sin e` (not Kasten–Young): the DNI
equals `I_sc · max(0, cos AOI) · 0.7^((1/sin e)^0.678) · K`. -/
theorem C5_airmass_is_cosecant (elevation incidenceAngle : ℝ)
    (h : 0 < elevation) :
    calculateDNI elevation incidenceAngle =
      SOLAR_CONSTANT * max 0 (Real.cos incidenceAngle) *
        ((0.7 : ℝ) ^ ((1 / Real.sin elevation) ^ (0.678 : ℝ))) *
        CLEAR_SKY_ATTENUATION := by
  unfold calculateDNI airMass atmosphericTransmittance
  rw [if_neg (not_le.mpr h)]

/-- Witness for `C5_airmass_is_cosecant` at elevation π/2, incidence 0. -/
theorem C5_airmass_is_cosecant_witness :
    (0 : ℝ) < Real.pi / 2 ∧
    calculateDNI (Real.pi / 2) 0 =
      SOLAR_CONSTANT * max 0 (Real.cos 0) *
        ((0.7 : ℝ) ^ ((1 / Real.sin (Real.pi / 2)) ^ (0.678 : ℝ))) *
        CLEAR_SKY_ATTENUATION :=
  ⟨by positivity, C5_airmass_is_cosecant (Real.pi / 2) 0 (by positivity)⟩

/-- C7: numeric degeneracy is handled without error: the clear-sky index of
`processCandidate` is 0 whenever the baseline POA is ≤ 0 and equals
`clamp(correctedPOA / baselinePOA, 0, 2)` whenever it is positive; and a weak
fit correlation (|corr| < 0.3) makes `applyBiasCorrection` the identity. -/
theorem C7_numeric_degeneracy :
    (∀ baselinePOA correctedPOA : ℚ, baselinePOA ≤ 0 →
      clearSkyIndex baselinePOA correctedPOA = 0) ∧
    (∀ baselinePOA correctedPOA : ℚ, 0 < baselinePOA →
      clearSkyIndex baselinePOA correctedPOA =
        max 0 (min 2 (correctedPOA / baselinePOA))) ∧
    (∀ rawPOA slope intercept correlation : ℚ, |correlation| < 3 / 10 →
      applyBiasCorrection rawPOA slope intercept correlation = rawPOA) := by
  refine ⟨fun b c hb => ?_, fun b c hb => ?_, fun r s i c hc => ?_⟩
  · unfold clearSkyIndex; rw [if_neg (not_lt.mpr hb)]
  · unfold clearSkyIndex; rw [if_pos hb]
  · unfold applyBiasCorrection; rw [if_pos hc]; ring

/-- Witness for `C7_numeric_degeneracy`: baseline −1 gives CSI 0, baseline 4
gives the clamped ratio, and correlation 1/10 leaves the raw POA unchanged. -/
theorem C7_numeric_degeneracy_witness :
    ((-1 : ℚ) ≤ 0 ∧ clearSkyIndex (-1) 5 = 0) ∧
    ((0 : ℚ) < 4 ∧ clearSkyIndex 4 5 = max 0 (min 2 (5 / 4))) ∧
    (|(1 : ℚ) / 10| < 3 / 10 ∧ applyBiasCorrection 7 2 3 (1 / 10) = 7) :=
  ⟨⟨by norm_num, C7_numeric_degeneracy.1 (-1) 5 (by norm_num)⟩,
   ⟨by norm_num, C7_numeric_degeneracy.2.1 4 5 (by norm_num)⟩,
   ⟨by rw [abs_of_nonneg (by norm_num : (0:ℚ) ≤ 1 / 10)]; norm_num,
    C7_numeric_degeneracy.2.2 7 2 3 (1 / 10)
      (by rw [abs_of_nonneg (by norm_num : (0:ℚ) ≤ 1 / 10)]; norm_num)⟩⟩

/-- C10: with the default weights (0.6, 0.4), a local percentile in [0, 100]
and non-negative baseline and corrected POA, `calculateRPS` lands in
[0, 1.6]; and it does exceed 1 (so it is not normalised to [0, 1]). -/
theorem C10_rps_range :
    (∀ rawPOA baselinePOA correctedPOA localPercentile : ℚ,
      0 ≤ localPercentile → localPercentile ≤ 100 →
      0 ≤ baselinePOA → 0 ≤ correctedPOA →
      0 ≤ calculateRPS rawPOA baselinePOA correctedPOA localPercentile
          (3 / 5) (2 / 5) ∧
      calculateRPS rawPOA baselinePOA correctedPOA localPercentile
          (3 / 5) (2 / 5) ≤ 8 / 5) ∧
    calculateRPS 0 1 2 100 (3 / 5) (2 / 5) = 8 / 5 ∧
    1 < calculateRPS 0 1 2 100 (3 / 5) (2 / 5) := by
  refine ⟨fun r b c p hp0 hp1 hb hc => ?_, by norm_num [calculateRPS],
    by norm_num [calculateRPS]⟩
  unfold calculateRPS
  have hcsi0 : 0 ≤ (if 0 < b then max 0 (min 2 (c / b)) else 0 : ℚ) := by
    split
    · exact le_max_left 0 _
    · exact le_refl 0
  have hcsi2 : (if 0 < b then max 0 (min 2 (c / b)) else 0 : ℚ) ≤ 2 := by
    split
    · exact max_le (by norm_num) (min_le_left _ _)
    · norm_num
  refine ⟨le_max_left 0 _, max_le (by norm_num) ?_⟩
  nlinarith

/-- Witness for the bound part of `C10_rps_range` at a concrete input. -/
theorem C10_rps_range_witness :
    (0 : ℚ) ≤ 50 ∧ (50 : ℚ) ≤ 100 ∧ (0 : ℚ) ≤ 1 ∧ (0 : ℚ) ≤ 1 ∧
    0 ≤ calculateRPS 3 1 1 50 (3 / 5) (2 / 5) ∧
    calculateRPS 3 1 1 50 (3 / 5) (2 / 5) ≤ 8 / 5 := by
  refine ⟨by norm_num, by norm_num, by norm_num, by norm_num, ?_, ?_⟩
  · exact (C10_rps_range.1 3 1 1 50 (by norm_num) (by norm_num) (by norm_num)
      (by norm_num)).1
  · exact (C10_rps_range.1 3 1 1 50 (by norm_num) (by norm_num) (by norm_num)
      (by norm_num)).2

/-- C3 (counterexample): the representative date hard-coded in
`calculateRawPOA` is `new Date(2024, 2, 20)` — March 20 (JS month index 2),
not the June 21 summer solstice of the claim (JS month index 5, day 21). -/
theorem C3_counterexample :
    rawPOADate = CalendarDate.mk 2024 2 20 ∧
      ¬(rawPOADate.monthIndex = 5 ∧ rawPOADate.day = 21) := by
  exact ⟨rfl, by decide⟩

/-- C3 (amended): the daily integration of `calculateRawPOA` uses the spring
equinox March 20, 2024 — day of year 80 — as its fixed representative date for
every candidate location. -/
theorem C3_representative_date (lat lng : ℝ) (urbanPenalty : Bool) :
    getDayOfYear rawPOADate = 80 ∧
    calculateRawPOA lat lng urbanPenalty =
      calculateRawPOAOnDay lat lng urbanPenalty 80 := by
  refine ⟨by decide, ?_⟩
  unfold calculateRawPOA
  rw [show getDayOfYear rawPOADate = 80 from by decide]

/-- C2: `BiasCorrectionEngine.sampleReferencePoints` reads the global,
unseeded `Math.random()`; with two different streams of values for it, the
reference points — and through the bias-correction fit everything derived
from them — differ, so two invocations of `analyzeSolarPotential` on the same
request need not be bit-identical (while the repo's own tests and the
"Deterministic results for same inputs (seeded)" comments require it). -/
theorem C2_reference_points_depend_on_random :
    sampleReferencePoints ⟨30, -97⟩ 2 12 (fun _ => 0) ≠
      sampleReferencePoints ⟨30, -97⟩ 2 12 (fun _ => 1 / 2) := by
  intro h
  have h0 := congrArg List.headI h
  simp only [sampleReferencePoints, List.range_succ_eq_map, List.map_cons,
    List.headI] at h0
  rw [Coordinates.mk.injEq] at h0
  have hlat := h0.1
  norm_num [Real.cos_zero] at hlat

theorem samplingLoop_length (center : Coordinates) (radiusKm : ℝ) :
    ∀ n state, (samplingLoop center radiusKm n state).length = n := by
  intro n
  induction n with
  | zero => intro state; rfl
  | succ n ih =>
    intro state
    rw [samplingLoop, List.length_cons, ih]

/-- C8: for every center and radius, `generateRandomSampling` produces exactly
`clamp(round(radius² · 30), 200, 2000)` candidate points; in particular the
candidate count is always between 200 and 2000. -/
theorem C8_candidate_count (center : Coordinates) (radiusKm : ℚ)
    (h : 0 < radiusKm) :
    ((generateRandomSampling center radiusKm).length : ℤ) =
      min 2000 (max 200 (round (radiusKm * radiusKm * 30))) ∧
    200 ≤ (generateRandomSampling center radiusKm).length ∧
    (generateRandomSampling center radiusKm).length ≤ 2000 := by
  have hlen : (generateRandomSampling center radiusKm).length =
      (targetPointCount radiusKm).toNat := by
    unfold generateRandomSampling
    exact samplingLoop_length _ _ _ _
  have hlo : (200 : ℤ) ≤ targetPointCount radiusKm := by
    unfold targetPointCount
    exact le_min (by norm_num) (le_max_left 200 _)
  have hhi : targetPointCount radiusKm ≤ 2000 := min_le_left _ _
  have htgt : targetPointCount radiusKm =
      min 2000 (max 200 (round (radiusKm * radiusKm * 30))) := rfl
  rw [hlen]
  refine ⟨?_, ?_, ?_⟩
  · rw [Int.toNat_of_nonneg (by linarith), htgt]
  · omega
  · omega

/-- Witness for `C8_candidate_count` at radius 2 km. -/
theorem C8_candidate_count_witness :
    (0 : ℚ) < 2 ∧
    ((generateRandomSampling ⟨0, 0⟩ 2).length : ℤ) =
      min 2000 (max 200 (round ((2 : ℚ) * 2 * 30))) ∧
    200 ≤ (generateRandomSampling ⟨0, 0⟩ 2).length ∧
    (generateRandomSampling ⟨0, 0⟩ 2).length ≤ 2000 :=
  ⟨by norm_num, (C8_candidate_count ⟨0, 0⟩ 2 (by norm_num)).1,
   (C8_candidate_count ⟨0, 0⟩ 2 (by norm_num)).2.1,
   (C8_candidate_count ⟨0, 0⟩ 2 (by norm_num)).2.2⟩

theorem findIdx_sorted_eq_countP (x : ℚ) :
    ∀ l : List ℚ, l.Sorted (· ≤ ·) →
      l.findIdx (fun y => decide (x ≤ y)) = l.countP (fun y => decide (y < x)) := by
  intro l
  induction l with
  | nil => intro _; rfl
  | cons a t ih =>
    intro hs
    rw [List.sorted_cons] at hs
    by_cases hax : x ≤ a
    · rw [List.findIdx_cons, decide_eq_true hax, cond_true]
      symm
      rw [List.countP_eq_zero]
      intro b hb
      rcases List.mem_cons.mp hb with hb | hb
      · subst hb
        simp only [decide_eq_true_eq]
        exact not_lt.mpr hax
      · simp only [decide_eq_true_eq]
        exact not_lt.mpr (le_trans hax (hs.1 b hb))
    · rw [List.findIdx_cons, List.countP_cons, decide_eq_false hax, cond_false,
        ih hs.2, decide_eq_true (not_le.mp hax)]
      simp

/-- C4 (counterexample): with raw POA values [100, 200] and an affine bias fit
of slope 2 (correlation 1), the candidate with raw POA 100 gets corrected POA
200; the code ranks this corrected value against the *raw* list and returns
percentile 100, while the claim's formula — rank of the corrected value inside
the sorted list of all *corrected* values [200, 400] — gives percentile 0. -/
theorem C4_counterexample :
    processCandidateLocalPercentile 100 [100, 200] 2 0 1 = 100 ∧
    specLocalPercentile (applyBiasCorrection 100 2 0 1)
      (([100, 200] : List ℚ).map (fun r => applyBiasCorrection r 2 0 1)) = 0 := by
  have habs : ¬(|(1 : ℚ)| < 3 / 10) := by rw [abs_one]; norm_num
  have e1 : applyBiasCorrection 100 2 0 1 = 200 := by
    unfold applyBiasCorrection; rw [if_neg habs]; norm_num
  have e2 : applyBiasCorrection 200 2 0 1 = 400 := by
    unfold applyBiasCorrection; rw [if_neg habs]; norm_num
  constructor
  · unfold processCandidateLocalPercentile calculateLocalPercentile
    rw [e1]
    have hsort : ([100, 200] : List ℚ).insertionSort (· ≤ ·) = [100, 200] := by
      norm_num [List.insertionSort, List.orderedInsert]
    dsimp only
    rw [hsort]
    have hfi : ([100, 200] : List ℚ).findIdx (fun poa => decide ((200 : ℚ) ≤ poa)) = 1 := by
      rw [List.findIdx_cons, decide_eq_false (by norm_num : ¬(200 : ℚ) ≤ 100),
        cond_false, List.findIdx_cons,
        decide_eq_true (by norm_num : (200 : ℚ) ≤ 200), cond_true]
    rw [hfi]
    norm_num
  · unfold specLocalPercentile
    simp only [List.map_cons, List.map_nil, e1, e2]
    have hsort : ([200, 400] : List ℚ).insertionSort (· ≤ ·) = [200, 400] := by
      norm_num [List.insertionSort, List.orderedInsert]
    rw [hsort, List.indexOf_cons_self]
    norm_num

/-- C4 (amended): for n ≥ 2 candidates, the local percentile that
`processCandidate` stores is computed against the list of *raw* POA values:
it equals 100 when every raw value is strictly below the candidate's corrected
POA, and otherwise `clamp(100·r/(n−1), 0, 100)` where `r` is the number of raw
values strictly below the corrected POA. -/
theorem C4_percentile_against_raw (rawPOA slope intercept correlation : ℚ)
    (l : List ℚ) (h : 2 ≤ l.length) :
    processCandidateLocalPercentile rawPOA l slope intercept correlation =
      rankPercentile
        (l.countP (fun y =>
          decide (y < applyBiasCorrection rawPOA slope intercept correlation)))
        l.length := by
  set x := applyBiasCorrection rawPOA slope intercept correlation with hx
  unfold processCandidateLocalPercentile calculateLocalPercentile rankPercentile
  rw [← hx, if_neg (by omega)]
  have hperm := List.perm_insertionSort (· ≤ ·) l
  have hsorted := List.sorted_insertionSort (· ≤ ·) l
  have hlen : (l.insertionSort (· ≤ ·)).length = l.length := hperm.length_eq
  have hrank : (l.insertionSort (· ≤ ·)).findIdx (fun poa => decide (x ≤ poa)) =
      l.countP (fun y => decide (y < x)) := by
    rw [findIdx_sorted_eq_countP x _ hsorted]
    exact hperm.countP_eq _
  dsimp only
  rw [hrank, hlen]
  by_cases h1 : l.countP (fun y => decide (y < x)) = l.length
  · rw [if_pos h1, if_pos h1]
  · rw [if_neg h1, if_neg h1]
    by_cases h0 : l.countP (fun y => decide (y < x)) = 0
    · rw [if_pos h0, h0]
      norm_num
    · rw [if_neg h0]

/-- Witness for `C4_percentile_against_raw` on the two-element raw list [1, 2]
with the identity fit. -/
theorem C4_percentile_against_raw_witness :
    2 ≤ ([1, 2] : List ℚ).length ∧
    processCandidateLocalPercentile 5 [1, 2] 1 0 1 =
      rankPercentile
        (([1, 2] : List ℚ).countP (fun y =>
          decide (y < applyBiasCorrection 5 1 0 1)))
        ([1, 2] : List ℚ).length :=
  ⟨by norm_num, C4_percentile_against_raw 5 1 0 1 [1, 2] (by norm_num)⟩

theorem haversineA_symm (p q : Coordinates) : haversineA p q = haversineA q p := by
  unfold haversineA
  have h1 : (p.lat - q.lat) * Real.pi / 180 / 2 =
      -((q.lat - p.lat) * Real.pi / 180 / 2) := by ring
  have h2 : (p.lng - q.lng) * Real.pi / 180 / 2 =
      -((q.lng - p.lng) * Real.pi / 180 / 2) := by ring
  dsimp only
  rw [h1, h2, Real.sin_neg, Real.sin_neg]
  ring

theorem calculateDistance_symm (p q : Coordinates) :
    calculateDistance p q = calculateDistance q p := by
  unfold calculateDistance
  rw [haversineA_symm]

theorem spacingLoop_pairwise :
    ∀ pending finalResults : List BiasCorrectionResult,
      finalResults.Pairwise SpacedApart →
      (spacingLoop pending finalResults).Pairwise SpacedApart := by
  intro pending
  induction pending with
  | nil =>
    intro acc hacc
    rw [spacingLoop]
    exact hacc
  | cons candidate rest ih =>
    intro acc hacc
    rw [spacingLoop]
    split
    · exact ih acc hacc
    · next hnot =>
      push_neg at hnot
      have hpair : (acc ++ [candidate]).Pairwise SpacedApart := by
        rw [List.pairwise_append]
        refine ⟨hacc, List.pairwise_singleton _ _, ?_⟩
        intro a ha b hb
        rw [List.mem_singleton] at hb
        subst hb
        have hd := hnot a ha
        exact ⟨by rw [calculateDistance_symm]; exact hd, hd⟩
      dsimp only
      split
      · exact hpair
      · exact ih (acc ++ [candidate]) hpair

/-- C6: every result list produced by `applySpacingToBiasResults` — exactly
the locations `analyzeSolarPotential` returns — is pairwise spaced by at
least 0.5 km of haversine distance (in both argument orders). -/
theorem C6_top_results_spaced (results : List BiasCorrectionResult) :
    (applySpacingToBiasResults results).Pairwise SpacedApart := by
  unfold applySpacingToBiasResults
  split
  · next hlen =>
    match results, hlen with
    | [], _ => exact List.Pairwise.nil
    | [r], _ => exact List.pairwise_singleton _ _
  · exact spacingLoop_pairwise results [] List.Pairwise.nil

theorem heapSwap_length (l : List HeapItem) (i j : ℕ) :
    (heapSwap l i j).length = l.length := by
  unfold heapSwap; simp

theorem heapScore_heapSwap (l : List HeapItem) (i j m : ℕ) (hi : i < l.length)
    (hj : j < l.length) :
    heapScore (heapSwap l i j) m =
      if m = j then heapScore l i
      else if m = i then heapScore l j
      else heapScore l m := by
  unfold heapScore heapSwap
  by_cases hmj : m = j
  · subst hmj
    rw [if_pos rfl, List.getD_eq_getElem?_getD, List.getD_eq_getElem?_getD,
      List.getElem?_set_eq (by simpa using hj)]
    simp [List.getD_eq_getElem?_getD]
  · rw [if_neg hmj, List.getD_eq_getElem?_getD, List.getElem?_set_ne (fun hh => hmj hh.symm)]
    by_cases hmi : m = i
    · subst hmi
      rw [if_pos rfl, List.getElem?_set_eq hi]
      simp [List.getD_eq_getElem?_getD]
    · rw [if_neg hmi, List.getElem?_set_ne (fun hh => hmi hh.symm),
        List.getD_eq_getElem?_getD]

theorem heapScore_set_ne (l : List HeapItem) (i : ℕ) (a : HeapItem) (m : ℕ)
    (h : m ≠ i) : heapScore (l.set i a) m = heapScore l m := by
  unfold heapScore
  rw [List.getD_eq_getElem?_getD, List.getElem?_set_ne (fun hh => h hh.symm),
    List.getD_eq_getElem?_getD]

theorem heapScore_set_self (l : List HeapItem) (i : ℕ) (a : HeapItem)
    (h : i < l.length) : heapScore (l.set i a) i = a.score := by
  unfold heapScore
  rw [List.getD_eq_getElem?_getD, List.getElem?_set_eq h]
  rfl

theorem heapScore_append_lt (l l2 : List HeapItem) (m : ℕ) (h : m < l.length) :
    heapScore (l ++ l2) m = heapScore l m := by
  unfold heapScore
  rw [List.getD_eq_getElem?_getD, List.getElem?_append, if_pos h,
    List.getD_eq_getElem?_getD]

theorem heapScore_concat_self (l : List HeapItem) (x : HeapItem) :
    heapScore (l ++ [x]) l.length = x.score := by
  unfold heapScore
  rw [List.getD_eq_getElem?_getD, List.getElem?_concat_length]
  rfl

theorem heapifyUp_length : ∀ (l : List HeapItem) (k : ℕ),
    (heapifyUp l k).length = l.length := by
  intro l k
  induction l, k using heapifyUp.induct with
  | case1 l => rw [heapifyUp, if_pos rfl]
  | case2 l k hk0 hlt ih =>
    rw [heapifyUp, if_neg hk0, if_pos hlt, ih, heapSwap_length]
  | case3 l k hk0 hlt =>
    rw [heapifyUp, if_neg hk0, if_neg hlt]

theorem heapifyDown_length : ∀ (l : List HeapItem) (k : ℕ),
    (heapifyDown l k).length = l.length := by
  intro l k
  induction l, k using heapifyDown.induct with
  | case1 l k heq => rw [heapifyDown, dif_pos heq]
  | case2 l k heq ih =>
    rw [heapifyDown, dif_neg heq, ih, heapSwap_length]

theorem getD_cons_set_perm :
    ∀ (t : List HeapItem) (j : ℕ) (a : HeapItem), j < t.length →
      (t.getD j default :: t.set j a).Perm (a :: t) := by
  intro t
  induction t with
  | nil => intro j a h; simp at h
  | cons b t' ih =>
    intro j a h
    cases j with
    | zero =>
      simpa using List.Perm.swap a b t'
    | succ j =>
      have h' : j < t'.length := by simpa using h
      have step1 : (t'.getD j default :: b :: t'.set j a).Perm
          (b :: t'.getD j default :: t'.set j a) := List.Perm.swap _ _ _
      have step2 : (b :: t'.getD j default :: t'.set j a).Perm (b :: a :: t') :=
        (ih j a h').cons b
      have step3 : (b :: a :: t').Perm (a :: b :: t') := List.Perm.swap _ _ _
      simpa using (step1.trans step2).trans step3

theorem heapSwap_perm :
    ∀ (l : List HeapItem) (i j : ℕ), i < l.length → j < l.length →
      (heapSwap l i j).Perm l := by
  intro l
  induction l with
  | nil => intro i j hi _; simp at hi
  | cons b t ih =>
    intro i j hi hj
    cases i with
    | zero =>
      cases j with
      | zero => unfold heapSwap; simp
      | succ j =>
        have hj' : j < t.length := by simpa using hj
        unfold heapSwap
        simpa using getD_cons_set_perm t j b hj'
    | succ i =>
      cases j with
      | zero =>
        have hi' : i < t.length := by simpa using hi
        unfold heapSwap
        simpa using getD_cons_set_perm t i b hi'
      | succ j =>
        have hi' : i < t.length := by simpa using hi
        have hj' : j < t.length := by simpa using hj
        have := ih i j hi' hj'
        unfold heapSwap at this ⊢
        simpa using this.cons b

theorem heapifyUp_perm :
    ∀ (l : List HeapItem) (k : ℕ), k < l.length → (heapifyUp l k).Perm l := by
  intro l k
  induction l, k using heapifyUp.induct with
  | case1 l =>
    intro _
    rw [heapifyUp, if_pos rfl]
  | case2 l k hk0 hlt ih =>
    intro hk
    rw [heapifyUp, if_neg hk0, if_pos hlt]
    have hp : (k - 1) / 2 < l.length :=
      lt_of_le_of_lt (Nat.le_trans (Nat.div_le_self _ 2) (Nat.pred_le k)) hk
    have hswap := heapSwap_perm l k ((k - 1) / 2) hk hp
    have hp2 : (k - 1) / 2 < (heapSwap l k ((k - 1) / 2)).length := by
      rw [heapSwap_length]; exact hp
    exact (ih hp2).trans hswap
  | case3 l k hk0 hlt =>
    intro _
    rw [heapifyUp, if_neg hk0, if_neg hlt]

theorem smallestChild_cases (heap : List HeapItem) (index : ℕ) :
    smallestChild heap index = index ∨
      (index < smallestChild heap index ∧ smallestChild heap index < heap.length ∧
        heapScore heap (smallestChild heap index) < heapScore heap index) := by
  unfold smallestChild childStep1
  by_cases h1 : 2 * index + 1 < heap.length ∧
      heapScore heap (2 * index + 1) < heapScore heap index
  · rw [if_pos h1]
    by_cases h2 : 2 * index + 2 < heap.length ∧
        heapScore heap (2 * index + 2) < heapScore heap (2 * index + 1)
    · rw [if_pos h2]; exact Or.inr ⟨by omega, h2.1, lt_trans h2.2 h1.2⟩
    · rw [if_neg h2]; exact Or.inr ⟨by omega, h1.1, h1.2⟩
  · rw [if_neg h1]
    by_cases h2 : 2 * index + 2 < heap.length ∧
        heapScore heap (2 * index + 2) < heapScore heap index
    · rw [if_pos h2]; exact Or.inr ⟨by omega, h2.1, h2.2⟩
    · rw [if_neg h2]; exact Or.inl rfl

theorem heapifyDown_perm :
    ∀ (l : List HeapItem) (k : ℕ), (heapifyDown l k).Perm l := by
  intro l k
  induction l, k using heapifyDown.induct with
  | case1 l k heq => rw [heapifyDown, dif_pos heq]
  | case2 l k heq ih =>
    rw [heapifyDown, dif_neg heq]
    rcases smallestChild_cases l k with hc | hc
    · exact absurd hc heq
    · have hk : k < l.length := lt_trans hc.1 hc.2.1
      exact ih.trans (heapSwap_perm l k _ hk hc.2.1)

theorem smallestChild_is_child (heap : List HeapItem) (index : ℕ)
    (h : smallestChild heap index ≠ index) :
    smallestChild heap index = 2 * index + 1 ∨
      smallestChild heap index = 2 * index + 2 := by
  unfold smallestChild childStep1 at h ⊢
  by_cases h1 : 2 * index + 1 < heap.length ∧
      heapScore heap (2 * index + 1) < heapScore heap index
  · rw [if_pos h1] at h ⊢
    by_cases h2 : 2 * index + 2 < heap.length ∧
        heapScore heap (2 * index + 2) < heapScore heap (2 * index + 1)
    · rw [if_pos h2]; exact Or.inr rfl
    · rw [if_neg h2]; exact Or.inl rfl
  · rw [if_neg h1] at h ⊢
    by_cases h2 : 2 * index + 2 < heap.length ∧
        heapScore heap (2 * index + 2) < heapScore heap index
    · rw [if_pos h2]; exact Or.inr rfl
    · rw [if_neg h2] at h; exact absurd rfl h

theorem smallestChild_le_children (heap : List HeapItem) (index : ℕ)
    (h : smallestChild heap index ≠ index) :
    ∀ j, (j = 2 * index + 1 ∨ j = 2 * index + 2) → j < heap.length →
      heapScore heap (smallestChild heap index) ≤ heapScore heap j := by
  unfold smallestChild childStep1 at h ⊢
  by_cases h1 : 2 * index + 1 < heap.length ∧
      heapScore heap (2 * index + 1) < heapScore heap index
  · rw [if_pos h1] at h ⊢
    by_cases h2 : 2 * index + 2 < heap.length ∧
        heapScore heap (2 * index + 2) < heapScore heap (2 * index + 1)
    · rw [if_pos h2]
      rintro j (rfl | rfl) _
      · exact le_of_lt h2.2
      · exact le_refl _
    · rw [if_neg h2]
      rintro j (rfl | rfl) hj
      · exact le_refl _
      · have := not_and.mp h2 hj
        exact not_lt.mp this
  · rw [if_neg h1] at h ⊢
    by_cases h2 : 2 * index + 2 < heap.length ∧
        heapScore heap (2 * index + 2) < heapScore heap index
    · rw [if_pos h2]
      rintro j (rfl | rfl) hj
      · have hge : heapScore heap index ≤ heapScore heap (2 * index + 1) :=
          not_lt.mp (not_and.mp h1 hj)
        exact le_of_lt (lt_of_lt_of_le h2.2 hge)
      · exact le_refl _
    · rw [if_neg h2] at h; exact absurd rfl h

theorem smallestChild_eq_le (heap : List HeapItem) (index : ℕ)
    (h : smallestChild heap index = index) :
    ∀ j, (j = 2 * index + 1 ∨ j = 2 * index + 2) → j < heap.length →
      heapScore heap index ≤ heapScore heap j := by
  unfold smallestChild childStep1 at h
  by_cases h1 : 2 * index + 1 < heap.length ∧
      heapScore heap (2 * index + 1) < heapScore heap index
  · rw [if_pos h1] at h
    by_cases h2 : 2 * index + 2 < heap.length ∧
        heapScore heap (2 * index + 2) < heapScore heap (2 * index + 1)
    · rw [if_pos h2] at h; omega
    · rw [if_neg h2] at h; omega
  · rw [if_neg h1] at h
    by_cases h2 : 2 * index + 2 < heap.length ∧
        heapScore heap (2 * index + 2) < heapScore heap index
    · rw [if_pos h2] at h; omega
    · rintro j (rfl | rfl) hj
      · exact not_lt.mp (not_and.mp h1 hj)
      · exact not_lt.mp (not_and.mp h2 hj)

theorem heapifyUp_isMinHeap :
    ∀ (l : List HeapItem) (k : ℕ), k < l.length → UpInvHolds l k →
      IsMinHeap (heapifyUp l k) := by
  intro l k
  induction l, k using heapifyUp.induct with
  | case1 l =>
    intro _ hinv
    rw [heapifyUp, if_pos rfl]
    intro j hj hjl
    exact hinv.1 j hj hjl (by omega)
  | case2 l k hk0 hlt ih =>
    intro hk hinv
    rw [heapifyUp, if_neg hk0, if_pos hlt]
    have hp : (k - 1) / 2 < l.length :=
      lt_of_le_of_lt (Nat.le_trans (Nat.div_le_self _ 2) (Nat.pred_le k)) hk
    have hpk : (k - 1) / 2 ≠ k := by omega
    have hS : ∀ m, heapScore (heapSwap l k ((k - 1) / 2)) m =
        if m = (k - 1) / 2 then heapScore l k
        else if m = k then heapScore l ((k - 1) / 2)
        else heapScore l m := fun m => heapScore_heapSwap l k ((k - 1) / 2) m hk hp
    have hlen : (heapSwap l k ((k - 1) / 2)).length = l.length := heapSwap_length l k _
    refine ih (by rw [hlen]; exact hp) ⟨?_, ?_⟩
    · -- ordering at every child except the new cursor (k-1)/2
      intro j hj hjl hjp
      rw [hlen] at hjl
      by_cases hjk : j = k
      · subst hjk
        rw [hS, hS, if_pos rfl, if_neg hjp, if_pos rfl]
        exact le_of_lt hlt
      · rw [hS, hS, if_neg hjp, if_neg hjk]
        by_cases hq : (j - 1) / 2 = (k - 1) / 2
        · rw [if_pos hq]
          have h1 : heapScore l ((j - 1) / 2) ≤ heapScore l j :=
            hinv.1 j hj hjl hjk
          rw [hq] at h1
          exact le_of_lt (lt_of_lt_of_le hlt h1)
        · rw [if_neg hq]
          by_cases hqk : (j - 1) / 2 = k
          · rw [if_pos hqk]
            have hchild : j = 2 * k + 1 ∨ j = 2 * k + 2 := by omega
            exact hinv.2 j (by omega) hchild hjl
          · rw [if_neg hqk]
            exact hinv.1 j hj hjl hjk
    · -- the grandparent condition at the new cursor
      intro j hp0 hchild hjl
      rw [hlen] at hjl
      have hgp : ((k - 1) / 2 - 1) / 2 ≠ (k - 1) / 2 := by omega
      have hgk : ((k - 1) / 2 - 1) / 2 ≠ k := by omega
      have hparent_p : heapScore l (((k - 1) / 2 - 1) / 2) ≤ heapScore l ((k - 1) / 2) :=
        hinv.1 ((k - 1) / 2) hp0 hp hpk
      rcases hchild with hj | hj
      · by_cases hjk : j = k
        · subst hjk
          rw [hS, hS, if_neg hgp, if_neg hgk, if_neg (by omega : ¬j = (j - 1) / 2),
            if_pos rfl]
          exact hparent_p
        · have hjne : j ≠ (k - 1) / 2 := by omega
          rw [hS, hS, if_neg hgp, if_neg hgk, if_neg hjne, if_neg hjk]
          have hpj : (j - 1) / 2 = (k - 1) / 2 := by omega
          have h1 : heapScore l ((j - 1) / 2) ≤ heapScore l j :=
            hinv.1 j (by omega) hjl hjk
          rw [hpj] at h1
          exact le_trans hparent_p h1
      · by_cases hjk : j = k
        · subst hjk
          rw [hS, hS, if_neg hgp, if_neg hgk, if_neg (by omega : ¬j = (j - 1) / 2),
            if_pos rfl]
          exact hparent_p
        · have hjne : j ≠ (k - 1) / 2 := by omega
          rw [hS, hS, if_neg hgp, if_neg hgk, if_neg hjne, if_neg hjk]
          have hpj : (j - 1) / 2 = (k - 1) / 2 := by omega
          have h1 : heapScore l ((j - 1) / 2) ≤ heapScore l j :=
            hinv.1 j (by omega) hjl hjk
          rw [hpj] at h1
          exact le_trans hparent_p h1
  | case3 l k hk0 hlt =>
    intro hk hinv
    rw [heapifyUp, if_neg hk0, if_neg hlt]
    intro j hj hjl
    by_cases hjk : j = k
    · subst hjk
      exact not_lt.mp hlt
    · exact hinv.1 j hj hjl hjk

theorem heapifyDown_isMinHeap :
    ∀ (l : List HeapItem) (k : ℕ), DownInvHolds l k →
      IsMinHeap (heapifyDown l k) := by
  intro l k
  induction l, k using heapifyDown.induct with
  | case1 l k heq =>
    intro hinv
    rw [heapifyDown, dif_pos heq]
    intro j hj hjl
    by_cases hq : (j - 1) / 2 = k
    · have hchild : j = 2 * k + 1 ∨ j = 2 * k + 2 := by omega
      rw [hq]
      exact smallestChild_eq_le l k heq j hchild hjl
    · exact hinv.1 j hj hjl hq
  | case2 l k heq ih =>
    intro hinv
    rw [heapifyDown, dif_neg heq]
    rcases smallestChild_cases l k with hc | hc
    · exact absurd hc heq
    obtain ⟨hks, hsl, hss⟩ := hc
    have hk : k < l.length := lt_trans hks hsl
    have hchild := smallestChild_is_child l k heq
    have hle := smallestChild_le_children l k heq
    set s := smallestChild l k with hs
    have hS : ∀ m, heapScore (heapSwap l k s) m =
        if m = s then heapScore l k
        else if m = k then heapScore l s
        else heapScore l m := fun m => heapScore_heapSwap l k s m hk hsl
    have hlen : (heapSwap l k s).length = l.length := heapSwap_length l k s
    have hps : (s - 1) / 2 = k := by omega
    refine ih ⟨?_, ?_⟩
    · intro j hj hjl hjp
      rw [hlen] at hjl
      by_cases hjs : j = s
      · rw [hjs, hps, hS, hS, if_neg (by omega : ¬k = s), if_pos rfl, if_pos rfl]
        exact le_of_lt hss
      · by_cases hjk : j = k
        · subst hjk
          have hj0 : 0 < j := hj
          have hq1 : (j - 1) / 2 ≠ s := by omega
          have hq2 : (j - 1) / 2 ≠ j := by omega
          rw [hS, hS, if_neg hq1, if_neg hq2, if_neg (by omega : ¬j = s),
            if_pos rfl]
          exact hinv.2 s (by omega) hchild hsl
        · rw [hS, hS, if_neg hjs, if_neg hjk]
          by_cases hq : (j - 1) / 2 = k
          · rw [if_neg hjp, if_pos hq]
            have hjchild : j = 2 * k + 1 ∨ j = 2 * k + 2 := by omega
            exact hle j hjchild hjl
          · rw [if_neg hjp, if_neg hq]
            exact hinv.1 j hj hjl hq
    · intro j hs0 hjchild hjl
      rw [hlen] at hjl
      have hjs : j ≠ s := by omega
      have hjk : j ≠ k := by omega
      rw [hS, hS, hps, if_neg (by omega : ¬k = s), if_pos rfl, if_neg hjs,
        if_neg hjk]
      have hpj : (j - 1) / 2 = s := by omega
      have h1 := hinv.1 j (by omega) hjl (by omega : (j - 1) / 2 ≠ k)
      rw [hpj] at h1
      exact h1

theorem IsMinHeap.zero_le {l : List HeapItem} (h : IsMinHeap l) :
    ∀ j, j < l.length → heapScore l 0 ≤ heapScore l j := by
  intro j
  induction j using Nat.strong_induction_on with
  | _ j ih =>
    intro hj
    rcases Nat.eq_zero_or_pos j with h0 | h0
    · subst h0; exact le_refl _
    · have hp : (j - 1) / 2 < j := by omega
      exact le_trans (ih _ hp (lt_trans hp hj)) (h j h0 hj)

theorem IsMinHeap.root_le_mem {l : List HeapItem} (h : IsMinHeap l)
    {b : HeapItem} (hb : b ∈ l) : heapScore l 0 ≤ b.score := by
  obtain ⟨n, hn, rfl⟩ := List.getElem_of_mem hb
  have hgn : heapScore l n = (l[n]).score := by
    unfold heapScore
    rw [List.getD_eq_getElem l default hn]
  rw [← hgn]
  exact h.zero_le n hn

theorem push_isMinHeap (maxSize : ℕ) (l : List HeapItem) (item : HeapItem)
    (h : IsMinHeap l) : IsMinHeap (push maxSize l item) := by
  unfold push
  split
  · next hfull =>
    apply heapifyUp_isMinHeap (l ++ [item]) l.length (by simp)
    constructor
    · intro j hj hjl hjk
      have hjl' : j < l.length := by
        rw [List.length_append] at hjl
        simp at hjl
        omega
      have hpl : (j - 1) / 2 < l.length := by omega
      rw [heapScore_append_lt l [item] j hjl', heapScore_append_lt l [item] _ hpl]
      exact h j hj hjl'
    · intro j hk0 hchild hjl
      rw [List.length_append] at hjl
      simp at hjl
      omega
  · split
    · next hroot =>
      apply heapifyDown_isMinHeap (l.set 0 item) 0
      constructor
      · intro j hj hjl hjp
        have hj0 : j ≠ 0 := by omega
        have hp0 : (j - 1) / 2 ≠ 0 := hjp
        rw [heapScore_set_ne l 0 item j hj0, heapScore_set_ne l 0 item _ hp0]
        exact h j hj (by rwa [List.length_set] at hjl)
      · intro j hk0 _ _
        omega
    · exact h

theorem push_length (maxSize : ℕ) (l : List HeapItem) (item : HeapItem) :
    (push maxSize l item).length =
      if l.length < maxSize then l.length + 1 else l.length := by
  unfold push
  split
  · simp [heapifyUp_length]
  · split
    · rw [heapifyDown_length, List.length_set]
    · rfl

theorem heapScore_cons_zero (r : HeapItem) (t : List HeapItem) :
    heapScore (r :: t) 0 = r.score := rfl

theorem heap_map_nodup {l seen : List HeapItem} (hsub : l.Subperm seen)
    (hnd : (seen.map HeapItem.score).Nodup) :
    (l.map HeapItem.score).Nodup := by
  obtain ⟨u, hu1, hu2⟩ := hsub
  have h1 : (u.map HeapItem.score).Nodup :=
    List.Nodup.sublist (hu2.map HeapItem.score) hnd
  exact ((hu1.map HeapItem.score).nodup_iff).mp h1

theorem push_inv (M : ℕ) (hM : 1 ≤ M) (l seen : List HeapItem) (x : HeapItem)
    (hnd : ((seen ++ [x]).map HeapItem.score).Nodup) (hinv : HeapInv M l seen) :
    HeapInv M (push M l x) (seen ++ [x]) := by
  obtain ⟨hheap, hlen, hsub, hdom⟩ := hinv
  have hndseen : (seen.map HeapItem.score).Nodup := by
    apply List.Nodup.sublist _ hnd
    exact (List.sublist_append_left seen [x]).map HeapItem.score
  have hxs : x.score ∉ seen.map HeapItem.score := by
    rw [List.map_append] at hnd
    have hnd' : (x.score :: seen.map HeapItem.score).Nodup :=
      ((List.perm_append_singleton x.score (seen.map HeapItem.score)).nodup_iff).mp hnd
    exact (List.nodup_cons.mp hnd').1
  have hlen' : (seen ++ [x]).length = seen.length + 1 := by simp
  by_cases hf : l.length < M
  · -- heap not full: the new item is appended and bubbled up
    have hpush : push M l x = heapifyUp (l ++ [x]) l.length := by
      unfold push; rw [if_pos hf]
    have hperm1 : (push M l x).Perm (l ++ [x]) := by
      rw [hpush]; exact heapifyUp_perm _ _ (by simp)
    have hlperm : l.Perm seen := hsub.perm_of_length_le (by omega)
    have hperm : (push M l x).Perm (seen ++ [x]) :=
      hperm1.trans (hlperm.append_right [x])
    refine ⟨push_isMinHeap M l x hheap, ?_, hperm.subperm, ?_⟩
    · rw [push_length, if_pos hf, hlen']
      omega
    · intro a ha hnotin b _
      exact absurd (hperm.mem_iff.mpr ha) hnotin
  · -- heap full
    obtain ⟨r, t, rfl⟩ : ∃ r t, l = r :: t := by
      cases l with
      | nil => exfalso; simp at hf; omega
      | cons r t => exact ⟨r, t, rfl⟩
    have hrl : r ∈ r :: t := List.mem_cons_self r t
    have hlnd : ((r :: t).map HeapItem.score).Nodup := heap_map_nodup hsub hndseen
    have hrt : r.score ∉ t.map HeapItem.score := by
      rw [List.map_cons] at hlnd
      exact (List.nodup_cons.mp hlnd).1
    have hrseen : r ∈ seen := hsub.subset hrl
    have hrx : r.score ≠ x.score := fun he =>
      hxs (he ▸ List.mem_map_of_mem HeapItem.score hrseen)
    by_cases hroot : heapScore (r :: t) 0 < x.score
    · -- new item beats the worst retained: the root is replaced
      have hpush : push M (r :: t) x = heapifyDown (x :: t) 0 := by
        unfold push; rw [if_neg hf, if_pos hroot, List.set_cons_zero]
      have hperm1 : (push M (r :: t) x).Perm (x :: t) := by
        rw [hpush]; exact heapifyDown_perm _ _
      have hrx' : r.score < x.score := by
        rwa [heapScore_cons_zero] at hroot
      have htsub : t.Subperm seen :=
        ((List.sublist_cons_self r t).subperm).trans hsub
      obtain ⟨u, hu1, hu2⟩ := htsub
      have hxt : (x :: t).Subperm (seen ++ [x]) := by
        refine ⟨u ++ [x], ?_, hu2.append_right [x]⟩
        exact (List.perm_append_singleton x u).trans (hu1.cons x)
      have hsub' : (push M (r :: t) x).Subperm (seen ++ [x]) := by
        obtain ⟨v, hv1, hv2⟩ := hxt
        exact ⟨v, hv1.trans hperm1.symm, hv2⟩
      refine ⟨push_isMinHeap M (r :: t) x hheap, ?_, hsub', ?_⟩
      · rw [push_length, if_neg hf, hlen']
        omega
      · intro a ha hnotin b hb
        have hnotin' : a ∉ x :: t := fun hmem =>
          hnotin (hperm1.mem_iff.mpr hmem)
        have hb' : b ∈ x :: t := hperm1.mem_iff.mp hb
        rcases List.mem_append.mp ha with hseen | hx'
        · by_cases hal : a ∈ r :: t
          · -- the dropped element is the old root
            have hat : a ∉ t := fun hat => hnotin' (List.mem_cons_of_mem x hat)
            have har : a = r := by
              rcases List.mem_cons.mp hal with h | h
              · exact h
              · exact absurd h hat
            subst har
            rcases List.mem_cons.mp hb' with hbx | hbt
            · rw [hbx]; exact hrx'
            · have hle : heapScore (a :: t) 0 ≤ b.score :=
                hheap.root_le_mem (List.mem_cons_of_mem a hbt)
              rw [heapScore_cons_zero] at hle
              have hne : a.score ≠ b.score := fun he =>
                hrt (he ▸ List.mem_map_of_mem HeapItem.score hbt)
              exact lt_of_le_of_ne hle hne
          · -- a was dropped before x arrived
            rcases List.mem_cons.mp hb' with hbx | hbt
            · have h1 := hdom a hseen hal r hrl
              rw [hbx]; exact lt_trans h1 hrx'
            · exact hdom a hseen hal b (List.mem_cons_of_mem r hbt)
        · -- a = x is impossible: x is retained
          have : a = x := by simpa using hx'
          subst this
          exact absurd (List.mem_cons_self a t) hnotin'
    · -- new item is the worst so far: it is dropped
      have hpush : push M (r :: t) x = r :: t := by
        unfold push; rw [if_neg hf, if_neg hroot]
      have hxr : x.score < r.score := by
        rw [heapScore_cons_zero] at hroot
        exact lt_of_le_of_ne (not_lt.mp hroot) (fun he => hrx he.symm)
      refine ⟨push_isMinHeap M (r :: t) x hheap, ?_, ?_, ?_⟩
      · rw [push_length, if_neg hf, hlen']
        omega
      · rw [hpush]
        exact hsub.trans (List.sublist_append_left seen [x]).subperm
      · intro a ha hnotin b hb
        rw [hpush] at hnotin hb
        rcases List.mem_append.mp ha with hseen | hx'
        · exact hdom a hseen hnotin b hb
        · have : a = x := by simpa using hx'
          subst this
          have hle : heapScore (r :: t) 0 ≤ b.score := hheap.root_le_mem hb
          rw [heapScore_cons_zero] at hle
          exact lt_of_lt_of_le hxr hle

theorem heapFold_inv (M : ℕ) (hM : 1 ≤ M) :
    ∀ (rest seen l : List HeapItem),
      ((seen ++ rest).map HeapItem.score).Nodup → HeapInv M l seen →
      HeapInv M (rest.foldl (push M) l) (seen ++ rest) := by
  intro rest
  induction rest with
  | nil =>
    intro seen l _ hinv
    simpa using hinv
  | cons x rest ih =>
    intro seen l hnd hinv
    have hnd1 : ((seen ++ [x]).map HeapItem.score).Nodup := by
      apply List.Nodup.sublist _ hnd
      apply List.Sublist.map
      exact List.Sublist.append_left (by simp) seen
    have h1 := push_inv M hM l seen x hnd1 hinv
    have h2 := ih (seen ++ [x]) (push M l x)
      (by rwa [List.append_assoc, List.singleton_append]) h1
    rw [List.append_assoc, List.singleton_append] at h2
    exact h2

theorem heapInv_of_fold (M : ℕ) (hM : 1 ≤ M) (items : List HeapItem)
    (hnd : (items.map HeapItem.score).Nodup) :
    HeapInv M (heapFold M items) items := by
  have hbase : HeapInv M [] [] := by
    refine ⟨?_, by simp, List.nil_subperm, by simp⟩
    intro j _ hj
    simp at hj
  have := heapFold_inv M hM items [] [] (by simpa) hbase
  simpa [heapFold] using this

theorem foldl_push_length (M : ℕ) :
    ∀ (rest l : List HeapItem) (n : ℕ), l.length = min M n →
      (rest.foldl (push M) l).length = min M (n + rest.length) := by
  intro rest
  induction rest with
  | nil =>
    intro l n hl
    simpa using hl
  | cons x rest ih =>
    intro l n hl
    rw [List.foldl_cons]
    have hx : (push M l x).length = min M (n + 1) := by
      rw [push_length]
      split
      · omega
      · omega
    rw [ih (push M l x) (n + 1) hx, List.length_cons]
    congr 1
    omega

/-- C9: for every capacity M ≥ 1 and every finite sequence of pushes on a
`MinHeap` (or the identically-coded `MaxHeap`) of `maxSize = M`, the heap's
size never exceeds M along the way and the final size is `min M count`; and
when all pushed scores are distinct, the heap retains exactly the
`min M count` highest-scoring items pushed (its contents are drawn from the
pushed items and every dropped item scores strictly below every retained
one), with the minimum retained score at the root. -/
theorem C9_bounded_heap_topk (M : ℕ) (items : List HeapItem) (hM : 1 ≤ M) :
    (∀ n, ((items.take n).foldl (push M) []).length ≤ M) ∧
    (heapFold M items).length = min M items.length ∧
    ((items.map HeapItem.score).Nodup →
      (heapFold M items).Subperm items ∧
      (∀ a ∈ items, a ∉ heapFold M items →
        ∀ b ∈ heapFold M items, a.score < b.score) ∧
      (∀ b ∈ heapFold M items, heapScore (heapFold M items) 0 ≤ b.score)) := by
  refine ⟨?_, ?_, ?_⟩
  · intro n
    have h := foldl_push_length M (items.take n) [] 0 (by simp)
    rw [h]
    omega
  · have h := foldl_push_length M items [] 0 (by simp)
    rw [heapFold, h]
    omega
  · intro hnd
    have hmain := heapInv_of_fold M hM items hnd
    exact ⟨hmain.2.2.1, hmain.2.2.2, fun b hb => hmain.1.root_le_mem hb⟩

/-- Witness for `C9_bounded_heap_topk`: capacity 2 with three pushes of
distinct scores 3, 1, 2, discharging both the capacity and the
distinct-scores hypotheses. -/
theorem C9_bounded_heap_topk_witness :
    1 ≤ 2 ∧
    (([⟨3, 0, 0, 0⟩, ⟨1, 0, 0, 0⟩, ⟨2, 0, 0, 0⟩] :
        List HeapItem).map HeapItem.score).Nodup ∧
    (∀ n, ((([⟨3, 0, 0, 0⟩, ⟨1, 0, 0, 0⟩, ⟨2, 0, 0, 0⟩] :
        List HeapItem).take n).foldl (push 2) []).length ≤ 2) ∧
    (heapFold 2 [⟨3, 0, 0, 0⟩, ⟨1, 0, 0, 0⟩, ⟨2, 0, 0, 0⟩]).length =
      min 2 ([⟨3, 0, 0, 0⟩, ⟨1, 0, 0, 0⟩, ⟨2, 0, 0, 0⟩] :
        List HeapItem).length ∧
    ((heapFold 2 [⟨3, 0, 0, 0⟩, ⟨1, 0, 0, 0⟩, ⟨2, 0, 0, 0⟩]).Subperm
      [⟨3, 0, 0, 0⟩, ⟨1, 0, 0, 0⟩, ⟨2, 0, 0, 0⟩] ∧
    (∀ a ∈ ([⟨3, 0, 0, 0⟩, ⟨1, 0, 0, 0⟩, ⟨2, 0, 0, 0⟩] : List HeapItem),
      a ∉ heapFold 2 [⟨3, 0, 0, 0⟩, ⟨1, 0, 0, 0⟩, ⟨2, 0, 0, 0⟩] →
      ∀ b ∈ heapFold 2 [⟨3, 0, 0, 0⟩, ⟨1, 0, 0, 0⟩, ⟨2, 0, 0, 0⟩],
        a.score < b.score) ∧
    (∀ b ∈ heapFold 2 [⟨3, 0, 0, 0⟩, ⟨1, 0, 0, 0⟩, ⟨2, 0, 0, 0⟩],
      heapScore (heapFold 2 [⟨3, 0, 0, 0⟩, ⟨1, 0, 0, 0⟩, ⟨2, 0, 0, 0⟩]) 0 ≤
        b.score)) :=
  ⟨by norm_num, by decide,
   (C9_bounded_heap_topk 2 [⟨3, 0, 0, 0⟩, ⟨1, 0, 0, 0⟩, ⟨2, 0, 0, 0⟩]
     (by norm_num)).1,
   (C9_bounded_heap_topk 2 [⟨3, 0, 0, 0⟩, ⟨1, 0, 0, 0⟩, ⟨2, 0, 0, 0⟩]
     (by norm_num)).2.1,
   (C9_bounded_heap_topk 2 [⟨3, 0, 0, 0⟩, ⟨1, 0, 0, 0⟩, ⟨2, 0, 0, 0⟩]
     (by norm_num)).2.2 (by decide)⟩
